import Mathlib

/-!
Verification development for the StreakBuddy habit-tracking bot
(`src/bot.py`).  The data model and all core operations (habit ledger,
reminder scheduler, durable store) are shallowly embedded below; calendar
dates are modelled as integers (days), which is faithful because ISO date
strings are in order-preserving bijection with days, and Python dicts are
modelled as association lists with unique keys (the only states the
program ever builds).
-/

namespace StreakBuddy

/-! ### Association lists modelling Python dicts -/

def dlookup {α β : Type} [DecidableEq α] (k : α) : List (α × β) → Option β
  | [] => none
  | p :: t => if p.1 = k then some p.2 else dlookup k t

/-- `d[k] = v`: replace the value at the key in place, or append a fresh key
(Python dict assignment / `setdefault` on a missing key). -/
def dinsert {α β : Type} [DecidableEq α] (k : α) (v : β) : List (α × β) → List (α × β)
  | [] => [(k, v)]
  | p :: t => if p.1 = k then (k, v) :: t else p :: dinsert k v t

/-- `del d[k]` / `d.pop(k, None)`: drop the entry with the key. -/
def derase {α β : Type} [DecidableEq α] (k : α) : List (α × β) → List (α × β)
  | [] => []
  | p :: t => if p.1 = k then derase k t else p :: derase k t

/-- Keys of an association list are pairwise distinct (always true of a dict). -/
def NodupKeys {α β : Type} (l : List (α × β)) : Prop :=
  (l.map Prod.fst).Nodup

/-! ### Characters, digits, decimal rendering of integers -/

/-- ASCII digit test, used for the source regex's literal character
classes (`[01]`, `[0-3]`, `[0-5]` and the explicit `2`); the regex's `\d`
class is the wider `pyIsDigit` below. -/
def isDig (c : Char) : Bool :=
  48 ≤ c.toNat && c.toNat ≤ 57

/-- Numeric value of an ASCII digit. -/
def dval (c : Char) : Nat :=
  c.toNat - 48

/-- Base code points of the Unicode decimal-digit (Nd) ranges; each range
is the ten consecutive digits 0-9 starting at its base.  This is the
character class Python's regex `\d` matches with `str` patterns (and that
`int` converts), per the Unicode 15.0 tables of current CPython. -/
def ndBases : List Nat :=
  [48, 0x660, 0x6F0, 0x7C0, 0x966, 0x9E6, 0xA66, 0xAE6, 0xB66, 0xBE6,
   0xC66, 0xCE6, 0xD66, 0xDE6, 0xE50, 0xED0, 0xF20, 0x1040, 0x1090, 0x17E0,
   0x1810, 0x1946, 0x19D0, 0x1A80, 0x1A90, 0x1B50, 0x1BB0, 0x1C40, 0x1C50, 0xA620,
   0xA8D0, 0xA900, 0xA9D0, 0xA9F0, 0xAA50, 0xABF0, 0xFF10, 0x104A0, 0x10D30, 0x11066,
   0x110F0, 0x11136, 0x111D0, 0x112F0, 0x11450, 0x114D0, 0x11650, 0x116C0, 0x11730, 0x118E0,
   0x11950, 0x11C50, 0x11D50, 0x11DA0, 0x11F50, 0x16A60, 0x16AC0, 0x16B50, 0x1D7CE, 0x1D7D8,
   0x1D7E2, 0x1D7EC, 0x1D7F6, 0x1E140, 0x1E2F0, 0x1E4F0, 0x1E950, 0x1FBF0]

/-- The Nd range a character belongs to, if any, mapped to the character's
decimal value (`int` on any Unicode digit yields its offset in its range). -/
def pyDigitVal (c : Char) : Option Nat :=
  (ndBases.find? (fun b => decide (b ≤ c.toNat) && decide (c.toNat ≤ b + 9))).map
    (fun b => c.toNat - b)

/-- The regex's `\d`: any Unicode decimal digit. -/
def pyIsDigit (c : Char) : Bool :=
  (pyDigitVal c).isSome

/-- Decimal value of a Unicode digit (0 on non-digits, never used there). -/
def pyDval (c : Char) : Nat :=
  (pyDigitVal c).getD 0

/-- The character set Python's `str.strip()` removes: `str.isspace()`
characters, i.e. `\t\n\x0B\x0C\r`, the separators `\x1C`-`\x1F`, space,
NEL, NBSP, and the Unicode space separators. -/
def pyIsSpace (c : Char) : Bool :=
  (9 ≤ c.toNat && c.toNat ≤ 13) || (28 ≤ c.toNat && c.toNat ≤ 31) || c.toNat == 32 ||
    c.toNat == 0x85 || c.toNat == 0xA0 || c.toNat == 0x1680 ||
    (0x2000 ≤ c.toNat && c.toNat ≤ 0x200A) || c.toNat == 0x2028 || c.toNat == 0x2029 ||
    c.toNat == 0x202F || c.toNat == 0x205F || c.toNat == 0x3000

def digitChar (n : Nat) : Char :=
  match n with
  | 0 => '0' | 1 => '1' | 2 => '2' | 3 => '3' | 4 => '4'
  | 5 => '5' | 6 => '6' | 7 => '7' | 8 => '8' | 9 => '9'
  | _ => '*'

/-- Decimal digits of a natural number, fuel-indexed so it reduces by `rfl`;
`natDigits` supplies enough fuel. -/
def natDigitsAux : Nat → Nat → List Char
  | 0, _ => []
  | fuel + 1, n =>
    if n < 10 then [digitChar n] else natDigitsAux fuel (n / 10) ++ [digitChar (n % 10)]

/-- Decimal rendering of a natural number (Python `str` on a nonnegative int). -/
def natDigits (n : Nat) : List Char :=
  natDigitsAux (n + 1) n

/-- Python `str` on an int: minus sign followed by the decimal digits. -/
def intStr (i : Int) : String :=
  if i < 0 then String.mk ('-' :: natDigits i.natAbs) else String.mk (natDigits i.toNat)

/-- Python `str.strip()`: drop `str.isspace()` characters from both ends. -/
def pstrip (s : String) : List Char :=
  ((s.data.dropWhile pyIsSpace).reverse.dropWhile pyIsSpace).reverse

/-! ### Time parsing (`parse_hhmm`, source lines 84-90)

The source validates with `re.fullmatch(r"([01]?\d|2[0-3]):([0-5]\d)", hhmm.strip())`
and builds `time(int(group1), int(group2))`.  The hour group matches one
`\d` (any Unicode decimal digit), an ASCII `0`/`1` followed by `\d`, or
ASCII `20`-`23`; the minute group is ASCII `[0-5]` then `\d`;  `int` maps
each digit to its decimal value. -/

def parse_hhmm (hhmm : String) : Option (Nat × Nat) :=
  match pstrip hhmm with
  | [h1, c, m1, m2] =>
    if c == ':' && pyIsDigit h1 && (isDig m1 && dval m1 ≤ 5) && pyIsDigit m2 then
      some (pyDval h1, 10 * pyDval m1 + pyDval m2)
    else none
  | [h1, h2, c, m1, m2] =>
    if c == ':' &&
        ((h1 == '0' || h1 == '1') && pyIsDigit h2 || h1 == '2' && (isDig h2 && dval h2 ≤ 3))
        && (isDig m1 && dval m1 ≤ 5) && pyIsDigit m2 then
      some (10 * pyDval h1 + pyDval h2, 10 * pyDval m1 + pyDval m2)
    else none
  | _ => none

/-! ### Data model (persisted layout of `data.json`)

Users are keyed by chat id (the JSON uses `str(chat_id)`, and every key the
program writes is `str` of an int, so integer keys model exactly the
reachable key space).  Dates are integers (days). -/

structure Habit where
  created : Int
  done_dates : List Int
  deriving DecidableEq, Repr

structure UserRec where
  habits : List (String × Habit)
  reminders : List (String × String)
  deriving DecidableEq, Repr

structure StoreState where
  users : List (Int × UserRec)
  deriving DecidableEq, Repr

def emptyStore : StoreState := ⟨[]⟩

/-- `get_user` (source lines 43-46): `setdefault` the user record, returning
the store with the user present and the record itself. -/
def get_user (store : StoreState) (chat_id : Int) : StoreState × UserRec :=
  match dlookup chat_id store.users with
  | some u => (store, u)
  | none =>
    let u : UserRec := ⟨[], []⟩
    (⟨dinsert chat_id u store.users⟩, u)

def setUser (store : StoreState) (chat_id : Int) (u : UserRec) : StoreState :=
  ⟨dinsert chat_id u store.users⟩

def habitLookup (store : StoreState) (chat_id : Int) (habit_name : String) : Option Habit :=
  (dlookup chat_id store.users).bind fun u => dlookup habit_name u.habits

def reminderLookup (store : StoreState) (chat_id : Int) (habit_name : String) : Option String :=
  (dlookup chat_id store.users).bind fun u => dlookup habit_name u.reminders

/-! ### Analytics helpers (source lines 58-81) -/

/-- `last_7_days_window`: the 7 calendar days ending today, inclusive. -/
def last_7_days_window (today : Int) : Finset Int :=
  (Finset.range 7).image (fun i : Nat => (today - 6) + (i : Int))

/-- The per-habit 7-day completion count from `stats` (source line 238):
`len(set(done_dates) & window)`. -/
def count_7 (done_dates : List Int) (today : Int) : Nat :=
  (done_dates.toFinset ∩ last_7_days_window today).card

/-- `compute_streak`'s backward walk: count consecutive days present in the
completion set starting at `d` and stepping back one day at a time. -/
def streakAux (s : Finset Int) (d : Int) : Nat :=
  if h : d ∈ s then streakAux s (d - 1) + 1 else 0
termination_by (s.filter (fun x => x ≤ d)).card
decreasing_by
  apply Finset.card_lt_card
  constructor
  · intro x hx
    simp only [Finset.mem_filter] at hx ⊢
    exact ⟨hx.1, by omega⟩
  · intro hsub
    have hd : d ∈ s.filter (fun x => x ≤ d) := by
      simp only [Finset.mem_filter]
      exact ⟨h, le_refl d⟩
    have := hsub hd
    simp only [Finset.mem_filter] at this
    omega

/-- `compute_streak` (source lines 74-81). -/
def compute_streak (done_dates : List Int) (today : Int) : Nat :=
  streakAux done_dates.toFinset today

/-! ### Reminder scheduler (source lines 94-152)

A live timer of the job queue.  `run_daily` records the job name, the chat
id, the habit name (the job `data`), and the fire time. -/

structure Job where
  name : String
  chatId : Int
  habit : String
  fireTime : Nat × Nat
  deriving DecidableEq, Repr

/-- `_job_name` (source lines 94-95): `f"reminder:{chat_id}:{habit_name}"`. -/
def job_name (chat_id : Int) (habit_name : String) : String :=
  "reminder:" ++ intStr chat_id ++ ":" ++ habit_name

/-- Number of live timers carrying a given job name. -/
def countByName (jobs : List Job) (n : String) : Nat :=
  (jobs.filter (fun j => decide (j.name = n))).length

structure SchedResult where
  jobs : List Job
  ok : Bool
  msg : String
  deriving Repr

def invalid_time_msg : String :=
  "Неверное время. Формат должен быть HH:MM (например 08:30)."

def scheduled_msg (habit_name hhmm : String) : String :=
  "Готово ✅ Буду напоминать про «" ++ habit_name ++ "» каждый день в " ++ hhmm ++ " (Кыргызстан)."

/-- `schedule_reminder` (source lines 112-130): validate the time, remove
every job with this key's name, then arm one new daily job. -/
def schedule_reminder (jobs : List Job) (chat_id : Int) (habit_name hhmm : String) :
    SchedResult :=
  match parse_hhmm hhmm with
  | none => ⟨jobs, false, invalid_time_msg⟩
  | some t =>
    let name := job_name chat_id habit_name
    let cleared := jobs.filter (fun j => decide (j.name ≠ name))
    ⟨cleared ++ [⟨name, chat_id, habit_name, t⟩], true, scheduled_msg habit_name hhmm⟩

/-- `unschedule_reminder` (source lines 133-138): drop every job with the
key's name and report whether any existed. -/
def unschedule_reminder (jobs : List Job) (chat_id : Int) (habit_name : String) :
    List Job × Bool :=
  let name := job_name chat_id habit_name
  (jobs.filter (fun j => decide (j.name ≠ name)),
   decide (0 < (jobs.filter (fun j => decide (j.name = name))).length))

/-- The `(chat_id, habit_name, hhmm)` triples the nested loops of
`restore_all_reminders` (source lines 141-152) walk over. -/
def reminder_entries (store : StoreState) : List (Int × String × String) :=
  (store.users.map (fun p => p.2.reminders.map (fun q => (p.1, q.1, q.2)))).flatten

/-- Re-arm one timer per persisted entry through the `schedule_reminder` path. -/
def schedule_list (jobs : List Job) (entries : List (Int × String × String)) : List Job :=
  entries.foldl (fun js e => (schedule_reminder js e.1 e.2.1 e.2.2).jobs) jobs

/-- `restore_all_reminders` (source lines 141-152). -/
def restore_all_reminders (store : StoreState) (jobs : List Job) : List Job :=
  schedule_list jobs (reminder_entries store)

/-! ### Durable store (`load_data`, source lines 28-35)

The backing file is `Option String` (`none` = missing) and the JSON
decoder is a parameter returning `none` exactly on `json.JSONDecodeError`. -/

def load_data (file : Option String) (parseJson : String → Option StoreState) : StoreState :=
  match file with
  | none => emptyStore
  | some contents =>
    match parseJson contents with
    | some d => d
    | none => emptyStore

/-! ### Core actions (source lines 156-202)

Each action is a load-mutate-save cycle: it receives the persisted store,
and returns the persisted store after the call (`saved = false` means
`save_data` was never reached, so the durable state is the input). -/

structure OpResult where
  store : StoreState
  saved : Bool
  msg : String
  deriving Repr

def exists_msg (habit_name : String) : String :=
  "Уже есть: «" ++ habit_name ++ "»"

def added_msg (habit_name : String) : String :=
  "Добавил: «" ++ habit_name ++ "» ✅"

def notfound_msg (habit_name : String) : String :=
  "Нет такой привычки: «" ++ habit_name ++ "»"

def removed_msg (habit_name : String) : String :=
  "Удалил: «" ++ habit_name ++ "» 🗑️"

def already_msg (habit_name : String) (streak : Nat) : String :=
  "Уже отмечено сегодня: «" ++ habit_name ++ "» ✅\n🔥 Стрик: " ++
    String.mk (natDigits streak) ++ " дн."

def marked_msg (habit_name : String) (streak : Nat) : String :=
  "Отмечено сегодня: «" ++ habit_name ++ "» ✅\n🔥 Стрик: " ++
    String.mk (natDigits streak) ++ " дн."

/-- `add_habit` (source lines 156-166). -/
def add_habit (today : Int) (store : StoreState) (chat_id : Int) (habit_name : String) :
    OpResult :=
  let lu := get_user store chat_id
  if (dlookup habit_name lu.2.habits).isSome then
    ⟨store, false, exists_msg habit_name⟩
  else
    let user := { lu.2 with habits := dinsert habit_name ⟨today, []⟩ lu.2.habits }
    ⟨setUser lu.1 chat_id user, true, added_msg habit_name⟩

/-- `remove_habit` (source lines 169-181): deletes the habit and pops the
persisted reminder entry.  (It never touches the job queue.) -/
def remove_habit (store : StoreState) (chat_id : Int) (habit_name : String) : OpResult :=
  let lu := get_user store chat_id
  if (dlookup habit_name lu.2.habits).isSome then
    let user : UserRec :=
      ⟨derase habit_name lu.2.habits, derase habit_name lu.2.reminders⟩
    ⟨setUser lu.1 chat_id user, true, removed_msg habit_name⟩
  else
    ⟨store, false, notfound_msg habit_name⟩

/-- `mark_done` (source lines 184-202): auto-create a missing habit, then
append today to its completion list unless already present. -/
def mark_done (today : Int) (store : StoreState) (chat_id : Int) (habit_name : String) :
    OpResult :=
  let lu := get_user store chat_id
  let hab := (dlookup habit_name lu.2.habits).getD ⟨today, []⟩
  if today ∈ hab.done_dates then
    ⟨store, false, already_msg habit_name (compute_streak hab.done_dates today)⟩
  else
    let hab' : Habit := { hab with done_dates := hab.done_dates ++ [today] }
    let user := { lu.2 with habits := dinsert habit_name hab' lu.2.habits }
    ⟨setUser lu.1 chat_id user, true,
      marked_msg habit_name (compute_streak hab'.done_dates today)⟩

/-! ### The text-handler branches that touch both store and timers
(`handle_text`, source lines 360-392) -/

structure TextResult where
  store : StoreState
  jobs : List Job
  saved : Bool
  msg : String
  deriving Repr

/-- The `напоминать <habit> в HH:MM` branch (source lines 362-375): arm the
timer, and persist the mapping only when scheduling succeeded. -/
def handle_schedule (store : StoreState) (jobs : List Job) (chat_id : Int)
    (habit_name hhmm : String) : TextResult :=
  let lu := get_user store chat_id
  let r := schedule_reminder jobs chat_id habit_name hhmm
  if r.ok then
    let user := { lu.2 with reminders := dinsert habit_name hhmm lu.2.reminders }
    ⟨setUser lu.1 chat_id user, r.jobs, true, r.msg⟩
  else
    ⟨store, r.jobs, false, r.msg⟩

/-- The `не напоминать <habit>` branch (source lines 378-392): pop the
persisted mapping (always saving) and cancel the live timer. -/
def handle_unschedule (store : StoreState) (jobs : List Job) (chat_id : Int)
    (habit_name : String) : TextResult :=
  let lu := get_user store chat_id
  let user := { lu.2 with reminders := derase habit_name lu.2.reminders }
  let store' := setUser lu.1 chat_id user
  let ur := unschedule_reminder jobs chat_id habit_name
  ⟨store', ur.1, true,
    if ur.2 then "Ок ✅ Больше не напоминаю про «" ++ habit_name ++ "»."
    else "Напоминаний для «" ++ habit_name ++ "» не было."⟩

/-! ### The whole system: persisted store plus live timers -/

structure Sys where
  store : StoreState
  jobs : List Job
  deriving Repr

/-- One core operation, as dispatched by `handle_text`. -/
inductive Op where
  | addHabit (today : Int) (chat_id : Int) (habit_name : String)
  | removeHabit (chat_id : Int) (habit_name : String)
  | markDone (today : Int) (chat_id : Int) (habit_name : String)
  | schedule (chat_id : Int) (habit_name hhmm : String)
  | unschedule (chat_id : Int) (habit_name : String)

def applyOp (sys : Sys) : Op → Sys
  | .addHabit today chat_id habit_name =>
    ⟨(add_habit today sys.store chat_id habit_name).store, sys.jobs⟩
  | .removeHabit chat_id habit_name =>
    ⟨(remove_habit sys.store chat_id habit_name).store, sys.jobs⟩
  | .markDone today chat_id habit_name =>
    ⟨(mark_done today sys.store chat_id habit_name).store, sys.jobs⟩
  | .schedule chat_id habit_name hhmm =>
    let r := handle_schedule sys.store sys.jobs chat_id habit_name hhmm
    ⟨r.store, r.jobs⟩
  | .unschedule chat_id habit_name =>
    let r := handle_unschedule sys.store sys.jobs chat_id habit_name
    ⟨r.store, r.jobs⟩

def applyOps (sys : Sys) (ops : List Op) : Sys :=
  ops.foldl applyOp sys

/-- Process start on a fresh installation: empty persisted store, then
`restore_all_reminders` (which arms nothing). -/
def initSys : Sys :=
  ⟨emptyStore, restore_all_reminders emptyStore []⟩

def Reachable (sys : Sys) : Prop :=
  ∃ ops : List Op, applyOps initSys ops = sys

def ReachableStore (store : StoreState) : Prop :=
  ∃ ops : List Op, (applyOps initSys ops).store = store

/-! ### Lemmas about the dictionary model -/

theorem dlookup_dinsert_self {α β : Type} [DecidableEq α] (k : α) (v : β)
    (l : List (α × β)) : dlookup k (dinsert k v l) = some v := by
  induction l with
  | nil => simp [dinsert, dlookup]
  | cons p t ih =>
    by_cases h : p.1 = k
    · simp [dinsert, h, dlookup]
    · simp [dinsert, h, dlookup, ih]

theorem dlookup_dinsert_ne {α β : Type} [DecidableEq α] {k' k : α} (v : β)
    (l : List (α × β)) (h : k' ≠ k) : dlookup k' (dinsert k v l) = dlookup k' l := by
  induction l with
  | nil => simp [dinsert, dlookup, Ne.symm h]
  | cons p t ih =>
    by_cases hp : p.1 = k
    · subst hp
      simp [dinsert, dlookup, Ne.symm h]
    · simp [dinsert, hp, dlookup, ih]

theorem dlookup_derase_self {α β : Type} [DecidableEq α] (k : α) (l : List (α × β)) :
    dlookup k (derase k l) = none := by
  induction l with
  | nil => simp [derase, dlookup]
  | cons p t ih =>
    by_cases h : p.1 = k
    · simpa [derase, h] using ih
    · simpa [derase, h, dlookup] using ih

theorem dlookup_derase_ne {α β : Type} [DecidableEq α] {k' k : α}
    (l : List (α × β)) (h : k' ≠ k) : dlookup k' (derase k l) = dlookup k' l := by
  induction l with
  | nil => simp [derase]
  | cons p t ih =>
    by_cases hp : p.1 = k
    · subst hp
      simp [derase, dlookup, Ne.symm h, ih]
    · simp [derase, hp, dlookup, ih]

theorem mem_dinsert {α β : Type} [DecidableEq α] {p : α × β} {k : α} {v : β}
    {l : List (α × β)} (h : p ∈ dinsert k v l) : p = (k, v) ∨ p ∈ l := by
  induction l with
  | nil => simpa [dinsert] using h
  | cons q t ih =>
    by_cases hq : q.1 = k
    · simp only [dinsert, hq, if_pos, List.mem_cons] at h
      rcases h with h | h
      · exact Or.inl h
      · exact Or.inr (List.mem_cons_of_mem q h)
    · simp only [dinsert, hq, if_neg, not_false_iff, List.mem_cons] at h
      rcases h with h | h
      · exact Or.inr (by simp [h])
      · rcases ih h with h' | h'
        · exact Or.inl h'
        · exact Or.inr (List.mem_cons_of_mem q h')

theorem mem_derase {α β : Type} [DecidableEq α] {p : α × β} {k : α}
    {l : List (α × β)} (h : p ∈ derase k l) : p ∈ l := by
  induction l with
  | nil => simp [derase] at h
  | cons q t ih =>
    by_cases hq : q.1 = k
    · simp only [derase, hq, if_pos] at h
      exact List.mem_cons_of_mem q (ih h)
    · simp only [derase, hq, if_neg, not_false_iff, List.mem_cons] at h
      rcases h with h | h
      · exact h ▸ List.mem_cons_self q t
      · exact List.mem_cons_of_mem q (ih h)

theorem mem_keys_derase {α β : Type} [DecidableEq α] {a k : α}
    {l : List (α × β)} (h : a ∈ (derase k l).map Prod.fst) :
    a ∈ l.map Prod.fst := by
  rcases List.mem_map.mp h with ⟨p, hp, hpa⟩
  exact hpa ▸ List.mem_map_of_mem Prod.fst (mem_derase hp)

theorem mem_keys_dinsert {α β : Type} [DecidableEq α] {a k : α} {v : β}
    {l : List (α × β)} :
    a ∈ (dinsert k v l).map Prod.fst ↔ a = k ∨ a ∈ l.map Prod.fst := by
  induction l with
  | nil => simp [dinsert]
  | cons p t ih =>
    by_cases hp : p.1 = k
    · rw [dinsert, if_pos hp]
      simp only [List.map_cons, List.mem_cons]
      rw [← hp]
      tauto
    · rw [dinsert, if_neg hp]
      simp only [List.map_cons, List.mem_cons, ih]
      tauto

theorem nodupKeys_dinsert {α β : Type} [DecidableEq α] {k : α} {v : β}
    {l : List (α × β)} (h : NodupKeys l) : NodupKeys (dinsert k v l) := by
  induction l with
  | nil => simp [NodupKeys, dinsert]
  | cons p t ih =>
    rw [NodupKeys, List.map_cons, List.nodup_cons] at h
    by_cases hp : p.1 = k
    · subst hp
      rw [NodupKeys, dinsert, if_pos rfl, List.map_cons, List.nodup_cons]
      exact h
    · rw [NodupKeys, dinsert, if_neg hp, List.map_cons, List.nodup_cons]
      refine ⟨fun hc => ?_, ih h.2⟩
      rcases mem_keys_dinsert.mp hc with h' | h'
      · exact hp h'
      · exact h.1 h'

theorem nodupKeys_derase {α β : Type} [DecidableEq α] (k : α)
    {l : List (α × β)} (h : NodupKeys l) : NodupKeys (derase k l) := by
  induction l with
  | nil => simpa [derase] using h
  | cons p t ih =>
    rw [NodupKeys, List.map_cons, List.nodup_cons] at h
    by_cases hp : p.1 = k
    · rw [derase, if_pos hp]
      exact ih h.2
    · rw [NodupKeys, derase, if_neg hp, List.map_cons, List.nodup_cons]
      exact ⟨fun hc => h.1 (mem_keys_derase hc), ih h.2⟩

theorem dlookup_eq_some_of_mem {α β : Type} [DecidableEq α] {k : α} {v : β}
    {l : List (α × β)} (hnd : NodupKeys l) (h : (k, v) ∈ l) :
    dlookup k l = some v := by
  induction l with
  | nil => cases h
  | cons p t ih =>
    rw [NodupKeys, List.map_cons, List.nodup_cons] at hnd
    rcases List.mem_cons.mp h with h' | h'
    · rw [← h', dlookup, if_pos rfl]
    · have hk : k ∈ t.map Prod.fst := List.mem_map_of_mem Prod.fst h'
      have hne : p.1 ≠ k := fun hc => hnd.1 (hc ▸ hk)
      rw [dlookup, if_neg hne]
      exact ih hnd.2 h'

theorem mem_of_dlookup_eq_some {α β : Type} [DecidableEq α] {k : α} {v : β}
    {l : List (α × β)} (h : dlookup k l = some v) : (k, v) ∈ l := by
  induction l with
  | nil => simp [dlookup] at h
  | cons p t ih =>
    obtain ⟨a, b⟩ := p
    by_cases hp : a = k
    · rw [dlookup] at h
      simp only [hp, if_pos] at h
      rw [← hp, ← Option.some_inj.mp h]
      exact List.mem_cons_self (a, b) t
    · rw [dlookup, if_neg hp] at h
      exact List.mem_cons_of_mem (a, b) (ih h)

theorem dlookup_eq_none_iff {α β : Type} [DecidableEq α] {k : α}
    {l : List (α × β)} : dlookup k l = none ↔ k ∉ l.map Prod.fst := by
  induction l with
  | nil => simp [dlookup]
  | cons p t ih =>
    by_cases hp : p.1 = k
    · simp [dlookup, hp]
    · simp [dlookup, hp, ih, Ne.symm hp]

/-! ### Decimal rendering: characters, injectivity, no colon -/

theorem natDigitsAux_congr : ∀ (f1 f2 n : Nat), n < f1 → n < f2 →
    natDigitsAux f1 n = natDigitsAux f2 n := by
  intro f1
  induction f1 with
  | zero => intro f2 n h1; omega
  | succ f ihf =>
    intro f2 n h1 h2
    cases f2 with
    | zero => omega
    | succ g =>
      rw [natDigitsAux, natDigitsAux]
      by_cases h : n < 10
      · simp [h]
      · have hd : n / 10 < n := Nat.div_lt_self (by omega) (by norm_num)
        simp only [h, if_neg, not_false_iff]
        rw [ihf g (n / 10) (by omega) (by omega)]

theorem natDigits_eq (n : Nat) :
    natDigits n =
      if n < 10 then [digitChar n] else natDigits (n / 10) ++ [digitChar (n % 10)] := by
  rw [natDigits, natDigitsAux]
  by_cases h : n < 10
  · simp [h]
  · have hd : n / 10 < n := Nat.div_lt_self (by omega) (by norm_num)
    simp only [h, if_neg, not_false_iff]
    rw [natDigits, natDigitsAux_congr n (n / 10 + 1) (n / 10) (by omega) (by omega)]

theorem natDigits_ne_nil (n : Nat) : natDigits n ≠ [] := by
  rw [natDigits_eq]
  by_cases h : n < 10 <;> simp [h]

theorem mem_natDigits (n : Nat) : ∀ c ∈ natDigits n, ∃ k, k < 10 ∧ c = digitChar k := by
  induction n using Nat.strong_induction_on with
  | _ n ih =>
    intro c hc
    rw [natDigits_eq] at hc
    by_cases h : n < 10
    · rw [if_pos h] at hc
      exact ⟨n, h, (List.mem_singleton.mp hc).symm ▸ rfl⟩
    · rw [if_neg h] at hc
      rcases List.mem_append.mp hc with hc' | hc'
      · exact ih (n / 10) (Nat.div_lt_self (by omega) (by norm_num)) c hc'
      · exact ⟨n % 10, Nat.mod_lt n (by norm_num), (List.mem_singleton.mp hc').symm ▸ rfl⟩

theorem digitChar_inj10 : ∀ a b : Fin 10, digitChar a = digitChar b → a = b := by decide

theorem digitChar_ne_colon : ∀ a : Fin 10, digitChar a ≠ ':' := by decide

theorem digitChar_ne_minus : ∀ a : Fin 10, digitChar a ≠ '-' := by decide

theorem colon_not_mem_natDigits (n : Nat) : ':' ∉ natDigits n := by
  intro hc
  rcases mem_natDigits n ':' hc with ⟨k, hk, he⟩
  exact digitChar_ne_colon ⟨k, hk⟩ he.symm

theorem minus_not_mem_natDigits (n : Nat) : '-' ∉ natDigits n := by
  intro hc
  rcases mem_natDigits n '-' hc with ⟨k, hk, he⟩
  exact digitChar_ne_minus ⟨k, hk⟩ he.symm

theorem natDigits_inj : ∀ m n : Nat, natDigits m = natDigits n → m = n := by
  intro m
  induction m using Nat.strong_induction_on with
  | _ m ih =>
    intro n h
    rw [natDigits_eq m, natDigits_eq n] at h
    by_cases hm : m < 10 <;> by_cases hn : n < 10
    · rw [if_pos hm, if_pos hn] at h
      have := digitChar_inj10 ⟨m, hm⟩ ⟨n, hn⟩ (List.singleton_inj.mp h)
      exact congrArg Fin.val this
    · rw [if_pos hm, if_neg hn] at h
      have hlen := congrArg List.length h
      simp only [List.length_singleton, List.length_append] at hlen
      have hpos := List.length_pos.mpr (natDigits_ne_nil (n / 10))
      omega
    · rw [if_neg hm, if_pos hn] at h
      have hlen := congrArg List.length h
      simp only [List.length_singleton, List.length_append] at hlen
      have hpos := List.length_pos.mpr (natDigits_ne_nil (m / 10))
      omega
    · rw [if_neg hm, if_neg hn] at h
      have := List.append_inj' h rfl
      have hdiv : m / 10 = n / 10 := ih (m / 10) (Nat.div_lt_self (by omega) (by norm_num)) _ this.1
      have hmod' := digitChar_inj10 ⟨m % 10, Nat.mod_lt m (by norm_num)⟩
        ⟨n % 10, Nat.mod_lt n (by norm_num)⟩ (List.singleton_inj.mp this.2)
      have hmod : m % 10 = n % 10 := congrArg Fin.val hmod'
      omega

theorem intStr_data (i : Int) :
    (intStr i).data = if i < 0 then '-' :: natDigits i.natAbs else natDigits i.toNat := by
  rw [intStr]
  by_cases h : i < 0 <;> simp [h]

theorem colon_not_mem_intStr (i : Int) : ':' ∉ (intStr i).data := by
  rw [intStr_data]
  by_cases h : i < 0
  · rw [if_pos h]
    intro hc
    rcases List.mem_cons.mp hc with hc' | hc'
    · exact absurd hc' (by decide)
    · exact colon_not_mem_natDigits _ hc'
  · rw [if_neg h]
    exact colon_not_mem_natDigits _

theorem intStr_inj {i j : Int} (h : intStr i = intStr j) : i = j := by
  have hd := congrArg String.data h
  rw [intStr_data, intStr_data] at hd
  by_cases hi : i < 0 <;> by_cases hj : j < 0
  · rw [if_pos hi, if_pos hj] at hd
    have htl : natDigits i.natAbs = natDigits j.natAbs := (List.cons.injEq .. ▸ hd).2
    have := natDigits_inj _ _ htl
    omega
  · rw [if_pos hi, if_neg hj] at hd
    exfalso
    rcases hx : natDigits j.toNat with _ | ⟨c, t⟩
    · exact natDigits_ne_nil _ hx
    · rw [hx] at hd
      have hc : c = '-' := (List.cons.injEq .. ▸ hd).1.symm
      exact minus_not_mem_natDigits j.toNat (hx ▸ hc ▸ List.mem_cons_self c t)
  · rw [if_neg hi, if_pos hj] at hd
    exfalso
    rcases hx : natDigits i.toNat with _ | ⟨c, t⟩
    · exact natDigits_ne_nil _ hx
    · rw [hx] at hd
      have hc : c = '-' := (List.cons.injEq .. ▸ hd).1
      exact minus_not_mem_natDigits i.toNat (hx ▸ hc ▸ List.mem_cons_self c t)
  · rw [if_neg hi, if_neg hj] at hd
    have := natDigits_inj _ _ hd
    omega

theorem append_colon_cancel :
    ∀ (a1 a2 t1 t2 : List Char), ':' ∉ a1 → ':' ∉ a2 →
      a1 ++ ':' :: t1 = a2 ++ ':' :: t2 → a1 = a2 ∧ t1 = t2 := by
  intro a1
  induction a1 with
  | nil =>
    intro a2 t1 t2 _ h2 he
    cases a2 with
    | nil => simpa using he
    | cons c b =>
      exfalso
      rw [List.nil_append, List.cons_append] at he
      have : c = ':' := ((List.cons.injEq ..).mp he).1.symm
      exact h2 (this ▸ List.mem_cons_self c b)
  | cons c a ih =>
    intro a2 t1 t2 h1 h2 he
    cases a2 with
    | nil =>
      exfalso
      rw [List.cons_append, List.nil_append] at he
      have : c = ':' := ((List.cons.injEq ..).mp he).1
      exact h1 (this ▸ List.mem_cons_self c a)
    | cons d b =>
      rw [List.cons_append, List.cons_append] at he
      have hcd := ((List.cons.injEq ..).mp he).1
      have hrest := ((List.cons.injEq ..).mp he).2
      have h1' : ':' ∉ a := fun hx => h1 (List.mem_cons_of_mem c hx)
      have h2' : ':' ∉ b := fun hx => h2 (List.mem_cons_of_mem d hx)
      obtain ⟨ha, ht⟩ := ih b t1 t2 h1' h2' hrest
      exact ⟨by rw [hcd, ha], ht⟩

theorem job_name_inj {u1 u2 : Int} {h1 h2 : String}
    (h : job_name u1 h1 = job_name u2 h2) : u1 = u2 ∧ h1 = h2 := by
  have hd := congrArg String.data h
  rw [job_name, job_name] at hd
  simp only [String.data_append, List.append_assoc, List.cons_append, List.nil_append,
    List.cons.injEq, true_and] at hd
  obtain ⟨ha, ht⟩ := append_colon_cancel _ _ _ _
    (colon_not_mem_intStr u1) (colon_not_mem_intStr u2) hd
  exact ⟨intStr_inj (String.ext ha), String.ext ht⟩

/-! ### Counting live timers by job name -/

theorem countByName_append (J1 J2 : List Job) (n : String) :
    countByName (J1 ++ J2) n = countByName J1 n + countByName J2 n := by
  simp [countByName, List.filter_append]

theorem countByName_cleared_self (J : List Job) (n0 : String) :
    countByName (J.filter (fun j => decide (j.name ≠ n0))) n0 = 0 := by
  rw [countByName, List.length_eq_zero]
  rw [List.filter_filter]
  apply List.filter_eq_nil_iff.mpr
  intro j _
  by_cases h : j.name = n0 <;> simp [h]

theorem countByName_cleared_ne (J : List Job) {n n0 : String} (h : n ≠ n0) :
    countByName (J.filter (fun j => decide (j.name ≠ n0))) n = countByName J n := by
  rw [countByName, List.filter_filter, countByName]
  congr 1
  apply List.filter_congr
  intro j _
  by_cases hj : j.name = n
  · have : j.name ≠ n0 := fun hc => h (hj ▸ hc ▸ rfl)
    simp [hj, this, h]
  · simp [hj]

theorem countByName_schedule (J : List Job) (u : Int) (h s : String) (n : String) :
    countByName (schedule_reminder J u h s).jobs n =
      if (parse_hhmm s).isSome ∧ job_name u h = n then 1 else countByName J n := by
  rcases hp : parse_hhmm s with _ | t
  · simp [schedule_reminder, hp]
  · rw [schedule_reminder]
    rw [hp]
    by_cases hn : job_name u h = n
    · rw [if_pos ⟨by simp [hp], hn⟩]
      simp only
      rw [countByName_append, hn, countByName_cleared_self]
      simp [countByName, hn]
    · rw [if_neg (fun hc => hn hc.2)]
      simp only
      rw [countByName_append, countByName_cleared_ne J (fun hc => hn hc.symm)]
      simp [countByName, hn]

theorem countByName_unschedule (J : List Job) (u : Int) (h : String) (n : String) :
    countByName (unschedule_reminder J u h).1 n ≤ countByName J n := by
  rw [unschedule_reminder]
  by_cases hn : n = job_name u h
  · rw [hn, countByName_cleared_self]
    exact Nat.zero_le _
  · rw [countByName_cleared_ne J hn]

theorem countByName_schedule_list (entries : List (Int × String × String)) :
    ∀ (J : List Job) (n : String),
      countByName (schedule_list J entries) n =
        if entries.any
            (fun e => (parse_hhmm e.2.2).isSome && decide (job_name e.1 e.2.1 = n)) then 1
        else countByName J n := by
  induction entries with
  | nil => intro J n; simp [schedule_list]
  | cons e L ih =>
    intro J n
    rw [schedule_list, List.foldl_cons]
    have step : List.foldl (fun js x => (schedule_reminder js x.1 x.2.1 x.2.2).jobs)
        ((schedule_reminder J e.1 e.2.1 e.2.2).jobs) L =
        schedule_list ((schedule_reminder J e.1 e.2.1 e.2.2).jobs) L := rfl
    rw [step, ih]
    rw [List.any_cons]
    by_cases hL : L.any
        (fun x => (parse_hhmm x.2.2).isSome && decide (job_name x.1 x.2.1 = n)) = true
    · simp [hL]
    · have hLf : L.any
          (fun x => (parse_hhmm x.2.2).isSome && decide (job_name x.1 x.2.1 = n)) = false :=
        Bool.eq_false_iff.mpr hL
      rw [if_neg (by simp [hLf])]
      rw [countByName_schedule]
      by_cases he : (parse_hhmm e.2.2).isSome ∧ job_name e.1 e.2.1 = n
      · rw [if_pos he]
        have hc : ((parse_hhmm e.2.2).isSome && decide (job_name e.1 e.2.1 = n)) = true := by
          simp [he.1, he.2]
        simp [hc, hLf]
      · rw [if_neg he]
        have hc : ((parse_hhmm e.2.2).isSome && decide (job_name e.1 e.2.1 = n)) = false := by
          by_cases h1 : (parse_hhmm e.2.2).isSome <;> by_cases h2 : job_name e.1 e.2.1 = n <;>
            simp [h1, h2] at he ⊢
        simp [hc, hLf]

/-! ### Streak and window lemmas -/

theorem streakAux_not_mem {s : Finset Int} {d : Int} (h : d ∉ s) : streakAux s d = 0 := by
  rw [streakAux, dif_neg h]

theorem streakAux_mem {s : Finset Int} {d : Int} (h : d ∈ s) :
    streakAux s d = streakAux s (d - 1) + 1 := by
  rw [streakAux, dif_pos h]

theorem mem_last_7_days_window {today d : Int} :
    d ∈ last_7_days_window today ↔ today - 6 ≤ d ∧ d ≤ today := by
  rw [last_7_days_window]
  simp only [Finset.mem_image, Finset.mem_range]
  constructor
  · rintro ⟨i, hi, rfl⟩
    omega
  · intro hd
    refine ⟨(d - (today - 6)).toNat, by omega, by omega⟩

theorem last_7_days_window_card (today : Int) : (last_7_days_window today).card = 7 := by
  rw [last_7_days_window, Finset.card_image_of_injective _ (fun a b hab => by omega)]
  exact Finset.card_range 7

/-! ### Facts about `get_user`, `setUser` and the lookups -/

def emptyUser : UserRec := ⟨[], []⟩

/-- Completion dates of a habit as persisted (empty when the habit is absent). -/
def doneOf (store : StoreState) (chat_id : Int) (habit_name : String) : List Int :=
  ((habitLookup store chat_id habit_name).map Habit.done_dates).getD []

theorem get_user_snd (store : StoreState) (u : Int) :
    (get_user store u).2 = (dlookup u store.users).getD emptyUser := by
  rcases hx : dlookup u store.users with _ | v <;> simp [get_user, hx, emptyUser]

theorem get_user_lookup_self (store : StoreState) (u : Int) :
    dlookup u (get_user store u).1.users = some ((get_user store u).2) := by
  rcases hx : dlookup u store.users with _ | v
  · simp [get_user, hx, dlookup_dinsert_self]
  · simp [get_user, hx]

theorem get_user_lookup_ne (store : StoreState) (u : Int) {u' : Int} (hne : u' ≠ u) :
    dlookup u' (get_user store u).1.users = dlookup u' store.users := by
  rcases hx : dlookup u store.users with _ | v
  · simp [get_user, hx, dlookup_dinsert_ne _ _ hne]
  · simp [get_user, hx]

theorem habitLookup_eq (store : StoreState) (u : Int) (h : String) :
    habitLookup store u h = dlookup h ((dlookup u store.users).getD emptyUser).habits := by
  rw [habitLookup]
  rcases dlookup u store.users with _ | v <;> simp [emptyUser, dlookup]

theorem reminderLookup_eq (store : StoreState) (u : Int) (h : String) :
    reminderLookup store u h =
      dlookup h ((dlookup u store.users).getD emptyUser).reminders := by
  rw [reminderLookup]
  rcases dlookup u store.users with _ | v <;> simp [emptyUser, dlookup]

theorem habitLookup_setUser_self (store : StoreState) (u : Int) (urec : UserRec)
    (h : String) : habitLookup (setUser store u urec) u h = dlookup h urec.habits := by
  rw [habitLookup, setUser]
  simp [dlookup_dinsert_self]

theorem reminderLookup_setUser_self (store : StoreState) (u : Int) (urec : UserRec)
    (h : String) : reminderLookup (setUser store u urec) u h = dlookup h urec.reminders := by
  rw [reminderLookup, setUser]
  simp [dlookup_dinsert_self]

/-- The habit record `mark_done` works on has exactly the persisted
completion dates. -/
theorem getD_done_dates (store : StoreState) (u : Int) (h : String) (today : Int) :
    ((dlookup h ((get_user store u).2).habits).getD ⟨today, []⟩).done_dates =
      doneOf store u h := by
  rw [get_user_snd, doneOf, habitLookup_eq]
  rcases dlookup h ((dlookup u store.users).getD emptyUser).habits with _ | hb <;> simp

theorem mark_done_already {today : Int} {store : StoreState} {u : Int} {h : String}
    (hmem : today ∈ doneOf store u h) :
    mark_done today store u h =
      ⟨store, false, already_msg h (compute_streak (doneOf store u h) today)⟩ := by
  rw [mark_done]
  simp only [getD_done_dates]
  rw [if_pos hmem]

theorem mark_done_fresh {today : Int} {store : StoreState} {u : Int} {h : String}
    (hmem : today ∉ doneOf store u h) :
    mark_done today store u h =
      ⟨setUser (get_user store u).1 u
          { (get_user store u).2 with
            habits := dinsert h
              { (dlookup h ((get_user store u).2).habits).getD ⟨today, []⟩ with
                done_dates := doneOf store u h ++ [today] }
              ((get_user store u).2).habits },
        true, marked_msg h (compute_streak (doneOf store u h ++ [today]) today)⟩ := by
  rw [mark_done]
  simp only [getD_done_dates]
  rw [if_neg hmem]

theorem doneOf_mark_done (today : Int) (store : StoreState) (u : Int) (h : String) :
    doneOf (mark_done today store u h).store u h =
      if today ∈ doneOf store u h then doneOf store u h
      else doneOf store u h ++ [today] := by
  by_cases hmem : today ∈ doneOf store u h
  · rw [mark_done_already hmem, if_pos hmem]
  · rw [mark_done_fresh hmem, if_neg hmem]
    rw [doneOf, habitLookup_setUser_self]
    simp [dlookup_dinsert_self]

theorem schedule_reminder_ok (jobs : List Job) (u : Int) (h s : String) :
    (schedule_reminder jobs u h s).ok = (parse_hhmm s).isSome := by
  rw [schedule_reminder]
  rcases parse_hhmm s with _ | t <;> simp

theorem char_eq_of_toNat_eq {a b : Char} (h : a.toNat = b.toNat) : a = b :=
  Char.ofNat_toNat a ▸ Char.ofNat_toNat b ▸ congrArg Char.ofNat h

/-! ## Claim theorems -/

/-- C2: the computed streak equals the count of consecutive days walking
backward from today while each day is present in the completion set: if the
days `today, today-1, …, today-(k-1)` are all present and `today-k` is
absent, the streak is exactly `k` (so a gap terminates the count at the day
before the gap, and today absent yields streak 0). -/
theorem compute_streak_spec (dates : List Int) (today : Int) (k : Nat)
    (hmem : ∀ i : Nat, i < k → today - (i : Int) ∈ dates)
    (hgap : today - (k : Int) ∉ dates) :
    compute_streak dates today = k := by
  induction k generalizing today with
  | zero =>
    have h0 : today ∉ dates := by simpa using hgap
    rw [compute_streak, streakAux_not_mem (by simpa [List.mem_toFinset] using h0)]
  | succ n ih =>
    have h0 : today ∈ dates := by simpa using hmem 0 (Nat.succ_pos n)
    rw [compute_streak, streakAux_mem (by simpa [List.mem_toFinset] using h0)]
    have hrec : compute_streak dates (today - 1) = n := by
      apply ih (today - 1)
      · intro i hi
        have he : today - 1 - (i : Int) = today - ((i + 1 : Nat) : Int) := by
          push_cast
          ring
        rw [he]
        exact hmem (i + 1) (by omega)
      · have he : today - 1 - (n : Int) = today - ((n + 1 : Nat) : Int) := by
          push_cast
          ring
        rw [he]
        exact hgap
    rw [compute_streak] at hrec
    rw [hrec]

/-- Witness for C2 at a concrete completion set: days 10, 9, 8 with today
equal to 10 give a streak of 3. -/
theorem compute_streak_spec_witness : compute_streak [10, 9, 8] 10 = 3 :=
  compute_streak_spec [10, 9, 8] 10 3 (by decide) (by decide)

/-- C7: the reported 7-day figure is the number of distinct completion
dates inside the inclusive window `[today-6, today]`; a completion dated 8
days ago lies outside the window; and the count never exceeds 7 (each
window day counts at most once). -/
theorem stats_window_spec (done_dates : List Int) (today : Int) :
    count_7 done_dates today =
        (done_dates.toFinset.filter (fun d => today - 6 ≤ d ∧ d ≤ today)).card
      ∧ (today - 8) ∉ last_7_days_window today
      ∧ count_7 done_dates today ≤ 7 := by
  refine ⟨?_, ?_, ?_⟩
  · rw [count_7]
    congr 1
    ext d
    simp only [Finset.mem_inter, Finset.mem_filter, mem_last_7_days_window]
  · rw [mem_last_7_days_window]
    omega
  · rw [count_7]
    calc (done_dates.toFinset ∩ last_7_days_window today).card
        ≤ (last_7_days_window today).card := Finset.card_le_card Finset.inter_subset_right
      _ = 7 := last_7_days_window_card today

/-- C9: loading from a missing backing file, or from contents the JSON
decoder rejects, yields the empty initial state instead of an error. -/
theorem load_data_spec (parseJson : String → Option StoreState) (s : String)
    (hfail : parseJson s = none) :
    load_data none parseJson = emptyStore ∧ load_data (some s) parseJson = emptyStore := by
  constructor
  · rfl
  · rw [load_data, hfail]

/-- Witness for C9 with a decoder that rejects everything. -/
theorem load_data_spec_witness :
    load_data none (fun _ => none) = emptyStore ∧
      load_data (some "corrupt") (fun _ => none) = emptyStore :=
  load_data_spec (fun _ => none) "corrupt" rfl

/-- The habit list `mark_done` and friends inspect is the persisted one. -/
theorem get_user_habits_lookup (store : StoreState) (u : Int) (h : String) :
    dlookup h ((get_user store u).2).habits = habitLookup store u h := by
  rw [get_user_snd, habitLookup_eq]

/-- C3: marking an unknown habit silently creates it (created today, a
one-element completion set) and saves; a second mark on the same day leaves
the persisted store untouched, performs no save, and still reports the
current streak; completion sets stay duplicate-free. -/
theorem mark_done_spec (store : StoreState) (u : Int) (h : String) (today : Int) :
    (habitLookup store u h = none →
        habitLookup (mark_done today store u h).store u h = some ⟨today, [today]⟩ ∧
          (mark_done today store u h).saved = true ∧
          (mark_done today store u h).msg = marked_msg h (compute_streak [today] today))
      ∧ ((doneOf store u h).Nodup → (doneOf (mark_done today store u h).store u h).Nodup)
      ∧ (mark_done today (mark_done today store u h).store u h).store =
          (mark_done today store u h).store
      ∧ (mark_done today (mark_done today store u h).store u h).saved = false
      ∧ (mark_done today (mark_done today store u h).store u h).msg =
          already_msg h (compute_streak (doneOf (mark_done today store u h).store u h) today) := by
  have hmem2 : today ∈ doneOf (mark_done today store u h).store u h := by
    rw [doneOf_mark_done]
    by_cases hm : today ∈ doneOf store u h
    · rw [if_pos hm]
      exact hm
    · rw [if_neg hm]
      simp
  have hsecond := mark_done_already hmem2
  refine ⟨?_, ?_, ?_, ?_, ?_⟩
  · intro habs
    have hdone : doneOf store u h = [] := by
      rw [doneOf, habs]
      rfl
    have hmem : today ∉ doneOf store u h := by
      rw [hdone]
      exact List.not_mem_nil today
    rw [mark_done_fresh hmem]
    have hlu : dlookup h ((get_user store u).2).habits = none :=
      (get_user_habits_lookup store u h).symm ▸ habs
    refine ⟨?_, rfl, ?_⟩
    · rw [habitLookup_setUser_self]
      simp [dlookup_dinsert_self, hlu, hdone]
    · simp [hdone]
  · intro hnd
    rw [doneOf_mark_done]
    by_cases hm : today ∈ doneOf store u h
    · rwa [if_pos hm]
    · rw [if_neg hm]
      exact List.Nodup.append hnd (List.nodup_singleton today)
        (fun a ha hb => hm ((List.mem_singleton.mp hb) ▸ ha))
  · rw [hsecond]
  · rw [hsecond]
  · rw [hsecond]

/-- Witness for C3 on an empty store: the first mark creates and records
the habit, the second mark on the same day saves nothing and keeps the
completion set duplicate-free. -/
theorem mark_done_spec_witness :
    habitLookup (mark_done 0 emptyStore 1 "a").store 1 "a" = some ⟨0, [0]⟩ ∧
      (doneOf (mark_done 0 emptyStore 1 "a").store 1 "a").Nodup ∧
      (mark_done 0 (mark_done 0 emptyStore 1 "a").store 1 "a").store =
        (mark_done 0 emptyStore 1 "a").store ∧
      (mark_done 0 (mark_done 0 emptyStore 1 "a").store 1 "a").saved = false :=
  ⟨((mark_done_spec emptyStore 1 "a" 0).1 rfl).1,
   (mark_done_spec emptyStore 1 "a" 0).2.1 (by decide),
   (mark_done_spec emptyStore 1 "a" 0).2.2.1,
   (mark_done_spec emptyStore 1 "a" 0).2.2.2.1⟩

/-- C8: removing an unknown habit is a NotFound outcome that leaves the
persisted store untouched; removing an existing habit deletes the habit
record and any reminder keyed to it. -/
theorem remove_habit_spec (store : StoreState) (u : Int) (h : String) :
    (habitLookup store u h = none →
        remove_habit store u h = ⟨store, false, notfound_msg h⟩)
      ∧ (∀ hb : Habit, habitLookup store u h = some hb →
          habitLookup (remove_habit store u h).store u h = none ∧
            reminderLookup (remove_habit store u h).store u h = none ∧
            (remove_habit store u h).saved = true ∧
            (remove_habit store u h).msg = removed_msg h) := by
  constructor
  · intro habs
    rw [remove_habit]
    simp only [get_user_habits_lookup, habs]
    rfl
  · intro hb hsome
    rw [remove_habit]
    simp only [get_user_habits_lookup, hsome]
    simp only [Option.isSome_some, if_true]
    refine ⟨?_, ?_, by trivial, by trivial⟩
    · rw [habitLookup_setUser_self]
      simp [dlookup_derase_self]
    · rw [reminderLookup_setUser_self]
      simp [dlookup_derase_self]

/-- A store with one user owning habit `a` (no completions) and a reminder
for it, used by witnesses. -/
def sampleStore : StoreState := ⟨[(1, ⟨[("a", ⟨0, []⟩)], [("a", "08:30")]⟩)]⟩

/-- Witness for C8: removal fails on the empty store and, on a store
holding habit `a` with a reminder, removes both. -/
theorem remove_habit_spec_witness :
    remove_habit emptyStore 1 "a" = ⟨emptyStore, false, notfound_msg "a"⟩ ∧
      habitLookup (remove_habit sampleStore 1 "a").store 1 "a" = none ∧
      reminderLookup (remove_habit sampleStore 1 "a").store 1 "a" = none :=
  ⟨(remove_habit_spec emptyStore 1 "a").1 rfl,
   ((remove_habit_spec sampleStore 1 "a").2 (Habit.mk 0 []) rfl).1,
   ((remove_habit_spec sampleStore 1 "a").2 (Habit.mk 0 []) rfl).2.1⟩

/-- C10: the four informational failure outcomes — duplicate AddHabit,
RemoveHabit on an absent habit, MarkDone on an already-marked day, and
Schedule with an invalid time — perform no save, so the persisted state is
exactly the state before the call. -/
theorem no_save_on_informational_failure :
    (∀ (today : Int) (store : StoreState) (u : Int) (h : String),
        (habitLookup store u h).isSome →
          add_habit today store u h = ⟨store, false, exists_msg h⟩)
      ∧ (∀ (store : StoreState) (u : Int) (h : String),
          habitLookup store u h = none →
            remove_habit store u h = ⟨store, false, notfound_msg h⟩)
      ∧ (∀ (today : Int) (store : StoreState) (u : Int) (h : String),
          today ∈ doneOf store u h →
            (mark_done today store u h).store = store ∧
              (mark_done today store u h).saved = false)
      ∧ (∀ (store : StoreState) (jobs : List Job) (u : Int) (h s : String),
          parse_hhmm s = none →
            (handle_schedule store jobs u h s).store = store ∧
              (handle_schedule store jobs u h s).saved = false) := by
  refine ⟨?_, ?_, ?_, ?_⟩
  · intro today store u h hsome
    rw [add_habit]
    simp only [get_user_habits_lookup]
    rw [if_pos hsome]
  · intro store u h habs
    rw [remove_habit]
    simp only [get_user_habits_lookup, habs]
    rfl
  · intro today store u h hmem
    rw [mark_done_already hmem]
    exact ⟨rfl, rfl⟩
  · intro store jobs u h s hfail
    have hok : (schedule_reminder jobs u h s).ok = false := by
      rw [schedule_reminder_ok, hfail]
      rfl
    rw [handle_schedule, hok]
    exact ⟨rfl, rfl⟩

/-- A store with one user whose habit `a` is already marked on day 0,
used by witnesses. -/
def markedStore : StoreState := ⟨[(1, ⟨[("a", ⟨0, [0]⟩)], []⟩)]⟩

/-! ### C5: time-string validation -/

/-- Validity in the words of the claim: the string is `HH:MM` in 24-hour
format, a two-digit hour `00`-`23`, a colon, and a two-digit minute
`00`-`59`. -/
def claimedValid24 (s : String) : Bool :=
  match s.data with
  | [a1, a2, c, b1, b2] =>
    c == ':' && isDig a1 && isDig a2 && decide (10 * dval a1 + dval a2 ≤ 23) &&
      isDig b1 && isDig b2 && decide (10 * dval b1 + dval b2 ≤ 59)
  | _ => false

/-- Validity as amended: after stripping outer whitespace the string is
`H:MM` or `HH:MM` — the hour a single digit `0`-`9` or two digits
`00`-`23`, the minute exactly two digits `00`-`59`. -/
def amendedValidTime (s : String) : Bool :=
  match pstrip s with
  | [a, c, b1, b2] =>
    c == ':' && isDig a && isDig b1 && isDig b2 && decide (10 * dval b1 + dval b2 ≤ 59)
  | [a1, a2, c, b1, b2] =>
    c == ':' && isDig a1 && isDig a2 && decide (10 * dval a1 + dval a2 ≤ 23) &&
      isDig b1 && isDig b2 && decide (10 * dval b1 + dval b2 ≤ 59)
  | _ => false

theorem isDig_iff {ch : Char} : isDig ch = true ↔ 48 ≤ ch.toNat ∧ ch.toNat ≤ 57 := by
  simp [isDig]

theorem dval_eq (ch : Char) : dval ch = ch.toNat - 48 := rfl

theorem char_eq_iff_toNat {a b : Char} : a = b ↔ a.toNat = b.toNat :=
  ⟨fun he => he ▸ rfl, char_eq_of_toNat_eq⟩

theorem isSome_if_some {b : Bool} {x : Nat × Nat} :
    (if b then some x else none).isSome = b := by
  cases b <;> simp

theorem pyDigitVal_spec {c : Char} {v : Nat} (h : pyDigitVal c = some v) :
    ∃ b ∈ ndBases, b ≤ c.toNat ∧ c.toNat ≤ b + 9 ∧ v = c.toNat - b := by
  rw [pyDigitVal] at h
  obtain ⟨b, hfind, hv⟩ := Option.map_eq_some'.mp h
  have hp := List.find?_some hfind
  rw [Bool.and_eq_true, decide_eq_true_eq, decide_eq_true_eq] at hp
  exact ⟨b, List.mem_of_find?_eq_some hfind, hp.1, hp.2, hv.symm⟩

theorem pyDval_le_nine {c : Char} (h : pyIsDigit c = true) : pyDval c ≤ 9 := by
  rw [pyIsDigit] at h
  rcases hv : pyDigitVal c with _ | v
  · rw [hv] at h
    cases h
  · obtain ⟨b, _, h1, h2, h3⟩ := pyDigitVal_spec hv
    rw [pyDval, hv]
    simp only [Option.getD_some]
    omega

theorem ndBases_ascii : ∀ b ∈ ndBases, b = 48 ∨ 1632 ≤ b := by decide

theorem pyDigitVal_of_isDig {c : Char} (h : isDig c = true) :
    pyDigitVal c = some (c.toNat - 48) := by
  rw [isDig_iff] at h
  rw [pyDigitVal, ndBases]
  rw [List.find?_cons_of_pos]
  · rfl
  · rw [Bool.and_eq_true, decide_eq_true_eq, decide_eq_true_eq]
    omega

theorem pyDval_of_isDig {c : Char} (h : isDig c = true) : pyDval c = c.toNat - 48 := by
  rw [pyDval, pyDigitVal_of_isDig h]
  rfl

/-- Below code point 128 the only Nd range is ASCII `0`-`9`, so on ASCII
characters `\d` coincides with the ASCII digit test. -/
theorem pyIsDigit_ascii {c : Char} (hc : c.toNat ≤ 127) : pyIsDigit c = isDig c := by
  apply Bool.eq_iff_iff.mpr
  constructor
  · intro h
    rw [pyIsDigit] at h
    rcases hv : pyDigitVal c with _ | v
    · rw [hv] at h
      cases h
    · obtain ⟨b, hb, h1, h2, _⟩ := pyDigitVal_spec hv
      rcases ndBases_ascii b hb with rfl | hbig
      · rw [isDig_iff]
        omega
      · omega
  · intro h
    rw [pyIsDigit, pyDigitVal_of_isDig h]
    rfl

theorem mem_pstrip {c : Char} {s : String} (h : c ∈ pstrip s) : c ∈ s.data := by
  rw [pstrip, List.mem_reverse] at h
  have h1 := (List.dropWhile_sublist pyIsSpace).subset h
  rw [List.mem_reverse] at h1
  exact (List.dropWhile_sublist pyIsSpace).subset h1

theorem parse_hhmm_isSome_eq_amended (s : String)
    (hascii : ∀ c ∈ s.data, c.toNat ≤ 127) :
    (parse_hhmm s).isSome = amendedValidTime s := by
  have hstrip : ∀ c ∈ pstrip s, c.toNat ≤ 127 := fun c hc => hascii c (mem_pstrip hc)
  rw [parse_hhmm, amendedValidTime]
  rcases hx : pstrip s with _ | ⟨c1, _ | ⟨c2, _ | ⟨c3, _ | ⟨c4, _ | ⟨c5, _ | ⟨c6, l6⟩⟩⟩⟩⟩⟩
  · rfl
  · rfl
  · rfl
  · rfl
  · -- four characters: the single-digit-hour shape
    rw [hx] at hstrip
    have d1 : pyIsDigit c1 = isDig c1 := pyIsDigit_ascii (hstrip c1 (by simp))
    have d4 : pyIsDigit c4 = isDig c4 := pyIsDigit_ascii (hstrip c4 (by simp))
    rw [isSome_if_some, d1, d4]
    apply Bool.eq_iff_iff.mpr
    simp only [Bool.and_eq_true, beq_iff_eq, decide_eq_true_eq, isDig_iff, dval_eq,
      char_eq_iff_toNat]
    omega
  · -- five characters: the two-digit-hour shape
    rw [hx] at hstrip
    have d2 : pyIsDigit c2 = isDig c2 := pyIsDigit_ascii (hstrip c2 (by simp))
    have d5 : pyIsDigit c5 = isDig c5 := pyIsDigit_ascii (hstrip c5 (by simp))
    rw [isSome_if_some, d2, d5]
    apply Bool.eq_iff_iff.mpr
    simp only [Bool.and_eq_true, Bool.or_eq_true, beq_iff_eq, decide_eq_true_eq, isDig_iff,
      dval_eq, char_eq_iff_toNat]
    have e0 : ('0' : Char).toNat = 48 := rfl
    have e1 : ('1' : Char).toNat = 49 := rfl
    have e2 : ('2' : Char).toNat = 50 := rfl
    omega
  · rfl

theorem parse_hhmm_bounds (s : String) :
    ∀ hr mi : Nat, parse_hhmm s = some (hr, mi) → hr ≤ 23 ∧ mi ≤ 59 := by
  intro hr mi h
  rw [parse_hhmm] at h
  rcases hx : pstrip s with _ | ⟨c1, _ | ⟨c2, _ | ⟨c3, _ | ⟨c4, _ | ⟨c5, _ | ⟨c6, l6⟩⟩⟩⟩⟩⟩ <;>
    rw [hx] at h
  · cases h
  · cases h
  · cases h
  · cases h
  · simp only at h
    split at h
    · rename_i hcond
      injection h with hp
      injection hp with e1 e2
      simp only [Bool.and_eq_true, beq_iff_eq, decide_eq_true_eq] at hcond
      obtain ⟨⟨⟨hcol, h1⟩, ⟨h3, h35⟩⟩, h4⟩ := hcond
      have b1 := pyDval_le_nine h1
      have b4 := pyDval_le_nine h4
      have b3 := pyDval_of_isDig h3
      rw [dval_eq] at h35
      omega
    · cases h
  · simp only at h
    split at h
    · rename_i hcond
      injection h with hp
      injection hp with e1 e2
      simp only [Bool.and_eq_true, Bool.or_eq_true, beq_iff_eq, decide_eq_true_eq] at hcond
      obtain ⟨⟨⟨hcol, hhour⟩, ⟨hm1, hm15⟩⟩, h5⟩ := hcond
      have b5 := pyDval_le_nine h5
      have bm1 := pyDval_of_isDig hm1
      rw [dval_eq] at hm15
      rcases hhour with ⟨h01, hd2⟩ | ⟨rfl, hd2, h23⟩
      · have b2 := pyDval_le_nine hd2
        rcases h01 with rfl | rfl
        · have hz : pyDval '0' = 0 := rfl
          omega
        · have hz : pyDval '1' = 1 := rfl
          omega
      · have hz : pyDval '2' = 2 := rfl
        have b2 := pyDval_of_isDig hd2
        rw [dval_eq] at h23
        omega
    · cases h
  · cases h

/-- C5 counterexample: the code accepts the time string `8:30`, whose hour
is a single digit and therefore not of the claimed two-digit `HH:MM` form,
so "Schedule succeeds exactly when the string has a two-digit `00`-`23`
hour and `00`-`59` minute" is false as stated. -/
theorem schedule_accepts_nonclaimed_time :
    (schedule_reminder [] 1 "run" "8:30").ok = true ∧ claimedValid24 "8:30" = false :=
  ⟨rfl, rfl⟩

/-- The model matches Python beyond plain spaces and ASCII digits: a
vertical-tab-padded time is stripped by `str.strip()` and accepted, and an
Arabic-Indic hour digit is matched by `\d` and valued by `int`. -/
theorem parse_hhmm_python_strip : parse_hhmm "\x0B8:30" = some (8, 30) := rfl

theorem parse_hhmm_unicode_digit : parse_hhmm "٥:30" = some (5, 30) := rfl

/-- C5 (amended): for time strings of ASCII characters, Schedule succeeds
exactly when, after stripping outer whitespace, the string is `H:MM` or
`HH:MM` with the hour a single digit `0`-`9` or two digits `00`-`23` and
the minute two digits `00`-`59` (non-ASCII strings can additionally be
accepted where the regex `\d` matches a Unicode decimal digit); for every
string whatsoever, failure yields the InvalidTime message, arms no timer
and persists nothing, and every accepted time has hour at most 23 and
minute at most 59. -/
theorem schedule_validation_amended (store : StoreState) (jobs : List Job) (u : Int)
    (h s : String) :
    ((∀ c ∈ s.data, c.toNat ≤ 127) →
        (schedule_reminder jobs u h s).ok = amendedValidTime s)
      ∧ (parse_hhmm s = none →
          (schedule_reminder jobs u h s).jobs = jobs ∧
            (schedule_reminder jobs u h s).msg = invalid_time_msg ∧
            (handle_schedule store jobs u h s).store = store ∧
            (handle_schedule store jobs u h s).saved = false)
      ∧ (∀ hr mi : Nat, parse_hhmm s = some (hr, mi) → hr ≤ 23 ∧ mi ≤ 59) := by
  refine ⟨?_, ?_, parse_hhmm_bounds s⟩
  · intro hascii
    rw [schedule_reminder_ok, parse_hhmm_isSome_eq_amended s hascii]
  · intro hfail
    have hok : (schedule_reminder jobs u h s).ok = false := by
      rw [schedule_reminder_ok, hfail]
      rfl
    refine ⟨?_, ?_, ?_, ?_⟩
    · rw [schedule_reminder, hfail]
    · rw [schedule_reminder, hfail]
    · rw [handle_schedule, hok]
      rfl
    · rw [handle_schedule, hok]
      rfl

/-- Witness for C5's amended theorem: `99:99` is rejected with the
InvalidTime message and arms nothing; the ASCII string `8:30` parses with
in-range fields and satisfies the biconditional. -/
theorem schedule_validation_amended_witness :
    ((schedule_reminder [] 1 "run" "99:99").jobs = [] ∧
        (schedule_reminder [] 1 "run" "99:99").msg = invalid_time_msg) ∧
      (8 ≤ 23 ∧ 30 ≤ 59) ∧
      (schedule_reminder [] 1 "run" "8:30").ok = amendedValidTime "8:30" :=
  ⟨⟨((schedule_validation_amended emptyStore [] 1 "run" "99:99").2.1 rfl).1,
    ((schedule_validation_amended emptyStore [] 1 "run" "99:99").2.1 rfl).2.1⟩,
   (schedule_validation_amended emptyStore [] 1 "run" "8:30").2.2 8 30 rfl,
   (schedule_validation_amended emptyStore [] 1 "run" "8:30").1 (by decide)⟩

/-- Witness for C10 at concrete stores covering each failure branch. -/
theorem no_save_on_informational_failure_witness :
    add_habit 0 sampleStore 1 "a" = ⟨sampleStore, false, exists_msg "a"⟩ ∧
      remove_habit emptyStore 2 "b" = ⟨emptyStore, false, notfound_msg "b"⟩ ∧
      (mark_done 0 markedStore 1 "a").store = markedStore ∧
      (handle_schedule emptyStore [] 1 "a" "99:99").store = emptyStore :=
  ⟨no_save_on_informational_failure.1 0 sampleStore 1 "a" rfl,
   no_save_on_informational_failure.2.1 emptyStore 2 "b" rfl,
   (no_save_on_informational_failure.2.2.1 0 markedStore 1 "a"
     (by rw [show doneOf markedStore 1 "a" = [0] from rfl]; exact List.mem_singleton.mpr rfl)).1,
   (no_save_on_informational_failure.2.2.2 emptyStore [] 1 "a" "99:99" rfl).1⟩

/-! ### C1: the store-reconstructibility invariant and the removal bug -/

/-- A run of the core: create a habit, schedule its reminder, remove the
habit. -/
def c1_trace : List Op :=
  [Op.addHabit 0 1 "run", Op.schedule 1 "run" "08:30", Op.removeHabit 1 "run"]

/-- C1 (code bug): after `AddHabit`, `Schedule`, `RemoveHabit` for one key
the store no longer holds the habit or its reminder entry, yet the live
timer survives — `remove_habit` pops the persisted reminder but never
cancels the job — so the live-timer set is not reconstructible from the
Store alone. -/
theorem remove_habit_leaves_live_timer :
    countByName (applyOps initSys c1_trace).jobs (job_name 1 "run") = 1 ∧
      reminderLookup (applyOps initSys c1_trace).store 1 "run" = none ∧
      habitLookup (applyOps initSys c1_trace).store 1 "run" = none :=
  ⟨rfl, rfl, rfl⟩

/-! ### C4: key uniqueness of live timers -/

theorem filter_schedule_self (J : List Job) (u : Int) (name s : String) (t : Nat × Nat)
    (hp : parse_hhmm s = some t) :
    (schedule_reminder J u name s).jobs.filter
        (fun j => decide (j.name = job_name u name)) =
      [⟨job_name u name, u, name, t⟩] := by
  rw [schedule_reminder, hp]
  simp only
  rw [List.filter_append]
  have h1 : (J.filter (fun j => decide (j.name ≠ job_name u name))).filter
      (fun j => decide (j.name = job_name u name)) = [] :=
    List.length_eq_zero.mp (countByName_cleared_self J (job_name u name))
  rw [h1]
  simp

theorem handle_schedule_jobs (store : StoreState) (jobs : List Job) (u : Int)
    (h s : String) :
    (handle_schedule store jobs u h s).jobs = (schedule_reminder jobs u h s).jobs := by
  rw [handle_schedule]
  by_cases hok : (schedule_reminder jobs u h s).ok <;> simp [hok]

theorem handle_unschedule_jobs (store : StoreState) (jobs : List Job) (u : Int)
    (h : String) :
    (handle_unschedule store jobs u h).jobs = (unschedule_reminder jobs u h).1 := rfl

/-- Every operation preserves "at most one live timer per job name". -/
theorem applyOp_at_most_one {sys : Sys} (op : Op)
    (hinv : ∀ n : String, countByName sys.jobs n ≤ 1) :
    ∀ n : String, countByName (applyOp sys op).jobs n ≤ 1 := by
  intro n
  cases op with
  | addHabit today u h => exact hinv n
  | removeHabit u h => exact hinv n
  | markDone today u h => exact hinv n
  | schedule u h s =>
    show countByName (handle_schedule sys.store sys.jobs u h s).jobs n ≤ 1
    rw [handle_schedule_jobs, countByName_schedule]
    by_cases hc : (parse_hhmm s).isSome ∧ job_name u h = n
    · rw [if_pos hc]
    · rw [if_neg hc]
      exact hinv n
  | unschedule u h =>
    show countByName (handle_unschedule sys.store sys.jobs u h).jobs n ≤ 1
    rw [handle_unschedule_jobs]
    exact le_trans (countByName_unschedule sys.jobs u h n) (hinv n)

theorem applyOps_at_most_one :
    ∀ (ops : List Op) (sys : Sys),
      (∀ n : String, countByName sys.jobs n ≤ 1) →
      ∀ n : String, countByName (applyOps sys ops).jobs n ≤ 1 := by
  intro ops
  induction ops with
  | nil => exact fun sys hinv => hinv
  | cons op rest ih =>
    intro sys hinv
    exact ih (applyOp sys op) (applyOp_at_most_one op hinv)

theorem reachable_at_most_one (sys : Sys) (hr : Reachable sys) (n : String) :
    countByName sys.jobs n ≤ 1 := by
  obtain ⟨ops, rfl⟩ := hr
  exact applyOps_at_most_one ops initSys (fun n' => by rw [show initSys.jobs = [] from rfl]; simp [countByName]) n

/-- C4: scheduling the same (user, habit) key twice leaves exactly one
live timer for that key, firing at the second time only, because the
existing timer is cancelled before the new one is created; and in every
reachable system state each job name carries at most one live timer. -/
theorem schedule_twice_spec (jobs : List Job) (u : Int) (name s1 s2 : String)
    (t1 t2 : Nat × Nat) (_h1 : parse_hhmm s1 = some t1) (h2 : parse_hhmm s2 = some t2)
    (_hne : t1 ≠ t2) :
    (schedule_reminder (schedule_reminder jobs u name s1).jobs u name s2).jobs.filter
        (fun j => decide (j.name = job_name u name)) =
      [⟨job_name u name, u, name, t2⟩]
      ∧ ∀ sys : Sys, Reachable sys → ∀ n : String, countByName sys.jobs n ≤ 1 :=
  ⟨filter_schedule_self _ u name s2 t2 h2, reachable_at_most_one⟩

/-- Witness for C4: rescheduling `run` from 08:30 to 09:00 leaves exactly
one timer, at 09:00. -/
theorem schedule_twice_spec_witness :
    (schedule_reminder (schedule_reminder [] 1 "run" "08:30").jobs 1 "run" "09:00").jobs.filter
        (fun j => decide (j.name = job_name 1 "run")) =
      [⟨job_name 1 "run", 1, "run", (9, 0)⟩]
      ∧ ∀ sys : Sys, Reachable sys → ∀ n : String, countByName sys.jobs n ≤ 1 :=
  schedule_twice_spec [] 1 "run" "08:30" "09:00" (8, 30) (9, 0) rfl rfl (by decide)

/-! ### C6: restore fidelity

Every store the program can build is well-formed: dict keys are unique and
every persisted reminder string parses (it is only persisted after
`schedule_reminder` succeeded). -/

def GoodUser (urec : UserRec) : Prop :=
  NodupKeys urec.reminders ∧ ∀ q ∈ urec.reminders, (parse_hhmm q.2).isSome = true

def GoodStore (store : StoreState) : Prop :=
  NodupKeys store.users ∧ ∀ p ∈ store.users, GoodUser p.2

theorem goodUser_emptyUser : GoodUser emptyUser :=
  ⟨List.nodup_nil, fun q hq => absurd hq (List.not_mem_nil q)⟩

theorem goodStore_emptyStore : GoodStore emptyStore :=
  ⟨List.nodup_nil, fun p hp => absurd hp (List.not_mem_nil p)⟩

theorem goodStore_setUser {store : StoreState} {u : Int} {v : UserRec}
    (hg : GoodStore store) (hv : GoodUser v) : GoodStore (setUser store u v) := by
  refine ⟨nodupKeys_dinsert hg.1, fun p hp => ?_⟩
  rcases mem_dinsert hp with h | h
  · rw [h]
    exact hv
  · exact hg.2 p h

theorem goodUser_get_user {store : StoreState} (u : Int) (hg : GoodStore store) :
    GoodUser (get_user store u).2 := by
  rw [get_user_snd]
  rcases hx : dlookup u store.users with _ | v
  · exact goodUser_emptyUser
  · exact hg.2 (u, v) (mem_of_dlookup_eq_some hx)

theorem goodStore_get_user {store : StoreState} (u : Int) (hg : GoodStore store) :
    GoodStore (get_user store u).1 := by
  rcases hx : dlookup u store.users with _ | v
  · rw [get_user]
    rw [hx]
    exact goodStore_setUser hg goodUser_emptyUser
  · rw [get_user, hx]
    exact hg

theorem goodUser_set_habits {urec : UserRec} (habits' : List (String × Habit))
    (hu : GoodUser urec) : GoodUser { urec with habits := habits' } := hu

theorem goodUser_dinsert_reminder {urec : UserRec} {h s : String}
    (hu : GoodUser urec) (hs : (parse_hhmm s).isSome = true) :
    GoodUser { urec with reminders := dinsert h s urec.reminders } := by
  refine ⟨nodupKeys_dinsert hu.1, fun q hq => ?_⟩
  rcases mem_dinsert hq with hq' | hq'
  · rw [hq']
    exact hs
  · exact hu.2 q hq'

theorem goodUser_derase_reminder {urec : UserRec} (h : String) (hu : GoodUser urec) :
    GoodUser { urec with reminders := derase h urec.reminders } :=
  ⟨nodupKeys_derase h hu.1, fun q hq => hu.2 q (mem_derase hq)⟩

theorem goodStore_applyOp (sys : Sys) (op : Op) (hg : GoodStore sys.store) :
    GoodStore (applyOp sys op).store := by
  cases op with
  | addHabit today u h =>
    show GoodStore (add_habit today sys.store u h).store
    rw [add_habit]
    by_cases hc : (dlookup h ((get_user sys.store u).2).habits).isSome
    · rw [if_pos hc]
      exact hg
    · rw [if_neg hc]
      exact goodStore_setUser (goodStore_get_user u hg)
        (goodUser_set_habits _ (goodUser_get_user u hg))
  | removeHabit u h =>
    show GoodStore (remove_habit sys.store u h).store
    rw [remove_habit]
    by_cases hc : (dlookup h ((get_user sys.store u).2).habits).isSome
    · rw [if_pos hc]
      exact goodStore_setUser (goodStore_get_user u hg)
        (goodUser_derase_reminder h (goodUser_get_user u hg))
    · rw [if_neg hc]
      exact hg
  | markDone today u h =>
    show GoodStore (mark_done today sys.store u h).store
    by_cases hc : today ∈ doneOf sys.store u h
    · rw [mark_done_already hc]
      exact hg
    · rw [mark_done_fresh hc]
      exact goodStore_setUser (goodStore_get_user u hg)
        (goodUser_set_habits _ (goodUser_get_user u hg))
  | schedule u h s =>
    show GoodStore (handle_schedule sys.store sys.jobs u h s).store
    rw [handle_schedule]
    by_cases hok : (schedule_reminder sys.jobs u h s).ok
    · rw [if_pos hok]
      have hs : (parse_hhmm s).isSome = true := by
        rw [← schedule_reminder_ok sys.jobs u h s]
        exact hok
      exact goodStore_setUser (goodStore_get_user u hg)
        (goodUser_dinsert_reminder (goodUser_get_user u hg) hs)
    · rw [if_neg hok]
      exact hg
  | unschedule u h =>
    show GoodStore (handle_unschedule sys.store sys.jobs u h).store
    rw [handle_unschedule]
    exact goodStore_setUser (goodStore_get_user u hg)
      (goodUser_derase_reminder h (goodUser_get_user u hg))

theorem goodStore_applyOps :
    ∀ (ops : List Op) (sys : Sys), GoodStore sys.store →
      GoodStore (applyOps sys ops).store := by
  intro ops
  induction ops with
  | nil => exact fun sys hg => hg
  | cons op rest ih =>
    intro sys hg
    exact ih (applyOp sys op) (goodStore_applyOp sys op hg)

theorem reachableStore_good {store : StoreState} (hr : ReachableStore store) :
    GoodStore store := by
  obtain ⟨ops, rfl⟩ := hr
  exact goodStore_applyOps ops initSys goodStore_emptyStore

theorem mem_reminder_entries {store : StoreState} {e : Int × String × String} :
    e ∈ reminder_entries store ↔
      ∃ rec : UserRec, (e.1, rec) ∈ store.users ∧ (e.2.1, e.2.2) ∈ rec.reminders := by
  rw [reminder_entries, List.mem_flatten]
  constructor
  · rintro ⟨l, hl, hel⟩
    rcases List.mem_map.mp hl with ⟨p, hp, rfl⟩
    rcases List.mem_map.mp hel with ⟨q, hq, rfl⟩
    exact ⟨p.2, by simpa using hp, by simpa using hq⟩
  · rintro ⟨rec, hrec, hq⟩
    refine ⟨rec.reminders.map (fun q => (e.1, q.1, q.2)), ?_, ?_⟩
    · exact List.mem_map_of_mem _ hrec
    · rcases e with ⟨e1, e2, e3⟩
      exact List.mem_map_of_mem _ hq

/-- C6: for every store the core can reach, dropping all live timers and
re-running `restore_all_reminders` yields exactly one live timer per
persisted reminder entry — none missing, none duplicated. -/
theorem restore_fidelity (store : StoreState) (hr : ReachableStore store)
    (u : Int) (h : String) :
    countByName (restore_all_reminders store []) (job_name u h) =
      if (reminderLookup store u h).isSome then 1 else 0 := by
  have hg : GoodStore store := reachableStore_good hr
  rw [restore_all_reminders, countByName_schedule_list]
  have hiff : ((reminder_entries store).any
      (fun e => (parse_hhmm e.2.2).isSome && decide (job_name e.1 e.2.1 = job_name u h)))
      = (reminderLookup store u h).isSome := by
    apply Bool.eq_iff_iff.mpr
    rw [List.any_eq_true]
    constructor
    · rintro ⟨e, he, hp⟩
      rw [Bool.and_eq_true, decide_eq_true_eq] at hp
      obtain ⟨hparse, hname⟩ := hp
      obtain ⟨hu, hh⟩ := job_name_inj hname
      rcases mem_reminder_entries.mp he with ⟨rec, hrec, hq⟩
      rw [hu] at hrec
      rw [hh] at hq
      have hlu : dlookup u store.users = some rec :=
        dlookup_eq_some_of_mem hg.1 hrec
      have hgu : GoodUser rec := hg.2 (u, rec) hrec
      have hlh : dlookup h rec.reminders = some e.2.2 :=
        dlookup_eq_some_of_mem hgu.1 hq
      rw [reminderLookup, hlu]
      simp [hlh]
    · intro hsome
      rw [reminderLookup] at hsome
      rcases hlu : dlookup u store.users with _ | rec
      · rw [hlu] at hsome
        simp at hsome
      · rw [hlu] at hsome
        simp only [Option.some_bind] at hsome
        rcases hlh : dlookup h rec.reminders with _ | s'
        · rw [hlh] at hsome
          simp at hsome
        · have hrec : (u, rec) ∈ store.users := mem_of_dlookup_eq_some hlu
          have hq : (h, s') ∈ rec.reminders := mem_of_dlookup_eq_some hlh
          refine ⟨(u, h, s'), mem_reminder_entries.mpr ⟨rec, hrec, hq⟩, ?_⟩
          rw [Bool.and_eq_true, decide_eq_true_eq]
          exact ⟨hg.2 (u, rec) hrec |>.2 (h, s') hq, rfl⟩
  rw [hiff]
  rcases (reminderLookup store u h).isSome with _ | _ <;> rfl

/-- The store obtained by scheduling one reminder from a fresh start, used
by the C6 witness. -/
def w6Store : StoreState := (applyOps initSys [Op.schedule 1 "run" "08:30"]).store

/-- Witness for C6: restoring from the one-reminder store arms exactly one
timer for its key. -/
theorem restore_fidelity_witness :
    countByName (restore_all_reminders w6Store []) (job_name 1 "run") =
      if (reminderLookup w6Store 1 "run").isSome then 1 else 0 :=
  restore_fidelity w6Store ⟨[Op.schedule 1 "run" "08:30"], rfl⟩ 1 "run"

end StreakBuddy
